import Mathlib

/-!
Verification of the vido media-resolution pipeline.

The definitions below are a shallow embedding of the TypeScript source:
the yt-dlp service module (format selection, platform detection, media-kind
derivation, payload normalization) and the fetch-video POST route handler.
JavaScript numbers that hold pixel heights, widths and byte sizes are
modelled as integers; optional or missing JS fields are modelled with
Option; JS falsiness of empty strings and of numeric zero is modelled
explicitly at each use site.  Array.prototype.sort is stable per
ECMAScript 2019 and every comparator used by the source is a total
preorder, so its result is the unique stable sorted permutation, which
the structural insertion sort sortLe computes.  String.prototype.toLowerCase and the regex i
flag are modelled with the ASCII Char.toLower, which agrees with the JS
semantics on the ASCII literals these patterns use (without the u flag,
a non-ASCII character never case-folds onto an ASCII one).
-/

namespace Vido

/-- Raw format object from yt-dlp JSON output (YtDlpFormat in types/video.ts). -/
structure YtDlpFormat where
  format_id : String
  ext : String
  resolution : Option String
  width : Option Int
  height : Option Int
  filesize : Option Int
  filesize_approx : Option Int
  format_note : Option String
  vcodec : Option String
  acodec : Option String
  url : Option String
deriving DecidableEq, Repr

/-- One entry of the thumbnails array of a yt-dlp payload. -/
structure Thumb where
  url : String
deriving DecidableEq, Repr

/-- Parsed video info from yt-dlp (YtDlpVideoInfo in types/video.ts); the
fields the embedded functions consume.  Fields are optional because raw
payloads may omit any of them. -/
structure YtDlpVideoInfo where
  title : Option String
  thumbnail : Option String
  thumbnails : Option (List Thumb)
  duration : Option Int
  uploader : Option String
  channel : Option String
  formats : Option (List YtDlpFormat)
  url : Option String
deriving DecidableEq, Repr

/-- Requested quality tier, the sd or hd argument of selectFormat. -/
inductive Quality
  | sd
  | hd
deriving DecidableEq, Repr

/-- SD_MAX_HEIGHT constant from the source. -/
def SD_MAX_HEIGHT : Int := 480

/-- HD_TARGET_HEIGHT constant from the source. -/
def HD_TARGET_HEIGHT : Int := 1080

/-- Height with the JS default, f.height or 0. -/
def heightD (f : YtDlpFormat) : Int := f.height.getD 0

/-- Stable insertion of an element into a list relative to a boolean
comparator: the element lands in front of the first member it compares
less-or-equal to, hence after every earlier tie. -/
def insertLe {α : Type} (le : α → α → Bool) (x : α) : List α → List α
  | [] => [x]
  | y :: ys => if le x y then x :: y :: ys else y :: insertLe le x ys

/-- Stable insertion sort relative to a boolean comparator.  The source
calls Array.prototype.sort, stable per ECMAScript 2019; for the total
preorder comparators used there the stable sorted permutation is unique,
so this models the JS sort exactly. -/
def sortLe {α : Type} (le : α → α → Bool) : List α → List α
  | [] => []
  | x :: xs => insertLe le x (sortLe le xs)

/-- Comparator (a, b) mapsto (b.height or 0) - (a.height or 0) viewed as a
boolean less-or-equal: descending height order. -/
def descH (a b : YtDlpFormat) : Bool := decide (heightD b ≤ heightD a)

/-- Distance of a format height from the HD target. -/
def distTo1080 (f : YtDlpFormat) : Nat := (heightD f - HD_TARGET_HEIGHT).natAbs

/-- Comparator of the hd branch on (format, distance) pairs: ascending
distance, ties by descending height. -/
def hdLe (a b : YtDlpFormat × Nat) : Bool :=
  decide (a.2 < b.2) || (decide (a.2 = b.2) && decide (heightD b.1 ≤ heightD a.1))

/-- Internal helper selectFromFormats of the yt-dlp service: picks a format
from an already filtered list according to the quality tier. -/
def selectFromFormats (formats : List YtDlpFormat) (quality : Quality) :
    Option YtDlpFormat :=
  let sorted := sortLe descH formats
  match quality with
  | .sd =>
    let sdFormats := sorted.filter (fun f => decide (heightD f ≤ SD_MAX_HEIGHT))
    if sdFormats.length > 0 then sdFormats.head? else sorted.getLast?
  | .hd =>
    match sorted.find? (fun f => f.height == some HD_TARGET_HEIGHT) with
    | some f => some f
    | none =>
      let withDistance := sorted.map (fun f => (f, distTo1080 f))
      let sorted2 := sortLe hdLe withDistance
      sorted2.head?.map Prod.fst

/-- Truthiness test f.vcodec and f.vcodec not equal to the string none. -/
def hasVideoB (f : YtDlpFormat) : Bool :=
  match f.vcodec with
  | none => false
  | some v => !(v == "") && !(v == "none")

/-- Truthiness test f.height and f.height greater than 0. -/
def hasHeightB (f : YtDlpFormat) : Bool :=
  match f.height with
  | none => false
  | some h => decide (0 < h)

/-- Compatibility test: extension contained in the pair mp4, webm. -/
def isCompatibleB (f : YtDlpFormat) : Bool :=
  ["mp4", "webm"].contains f.ext

/-- Combined pre-filter predicate of selectFormat. -/
def videoPred (f : YtDlpFormat) : Bool :=
  hasVideoB f && hasHeightB f && isCompatibleB f

/-- selectFormat of the yt-dlp service: filters to real video formats with
known height and compatible extension, falling back to any format with a
known height, then delegates to selectFromFormats. -/
def selectFormat (formats : List YtDlpFormat) (quality : Quality) :
    Option YtDlpFormat :=
  let videoFormats := formats.filter videoPred
  if videoFormats.length = 0 then
    let anyWithHeight := formats.filter hasHeightB
    if anyWithHeight.length = 0 then none
    else selectFromFormats anyWithHeight quality
  else selectFromFormats videoFormats quality

/-- Lower-cased copy of a string, ASCII model of toLowerCase. -/
def lowerStr (s : String) : String := ⟨s.data.map Char.toLower⟩

/-- Lower-cased extension of a format, f.ext toLowerCase. -/
def extLower (f : YtDlpFormat) : String := lowerStr f.ext

/-- Image extension whitelist of the source. -/
def imageExtensions : List String := ["jpg", "jpeg", "png", "webp", "gif", "bmp"]

/-- Extension priority table of selectPhotoFormat; unknown keys give 99. -/
def extPriority (e : String) : Nat :=
  if e = "jpg" then 1
  else if e = "jpeg" then 1
  else if e = "png" then 2
  else if e = "webp" then 3
  else if e = "gif" then 4
  else if e = "bmp" then 5
  else 99

/-- Pixel area (width or 0) times (height or 0) of a format. -/
def area (f : YtDlpFormat) : Int := f.width.getD 0 * f.height.getD 0

/-- Comparator of selectPhotoFormat: descending area, ties by the raw
extension priority. -/
def photoLe (a b : YtDlpFormat) : Bool :=
  if area a = area b then decide (extPriority a.ext ≤ extPriority b.ext)
  else decide (area b ≤ area a)

/-- Predicate of the image pre-filter of selectPhotoFormat. -/
def imgPred (f : YtDlpFormat) : Bool := imageExtensions.contains (extLower f)

/-- selectPhotoFormat of the yt-dlp service. -/
def selectPhotoFormat (formats : List YtDlpFormat) : Option YtDlpFormat :=
  let imageFormats := formats.filter imgPred
  if imageFormats.length = 0 then formats.head?
  else (sortLe photoLe imageFormats).head?

/-- Whitespace class trimmed by the JS String trim method. -/
def isJsWhitespace (c : Char) : Bool :=
  c == ' ' || c == '\t' || c == '\n' || c == '\x0b' || c == '\x0c' || c == '\r' ||
  c == '\u00A0' || c == '\u1680' ||
  (decide (0x2000 ≤ c.toNat) && decide (c.toNat ≤ 0x200A)) ||
  c == '\u2028' || c == '\u2029' || c == '\u202F' || c == '\u205F' ||
  c == '\u3000' || c == '\uFEFF'

/-- Character list of a string with JS trim applied to both ends. -/
def jsTrim (s : String) : List Char :=
  ((s.data.dropWhile isJsWhitespace).reverse.dropWhile isJsWhitespace).reverse

/-- Case-insensitive test that the literal (given in lower case ASCII) is a
leading segment of the input characters; the per-character model of an
anchored regex literal under the i flag. -/
def ciStarts : List Char → List Char → Bool
  | [], _ => true
  | _ :: _, [] => false
  | l :: ls, c :: cs => (Char.toLower c == l) && ciStarts ls cs

/-- Case-insensitive removal of a leading literal, returning the remainder
when the literal matches. -/
def stripCi : List Char → List Char → Option (List Char)
  | [], t => some t
  | _ :: _, [] => none
  | l :: ls, c :: cs => if Char.toLower c == l then stripCi ls cs else none

/-- Characters matched by an unflagged regex dot (everything except the
four JS line terminators). -/
def isDotChar (c : Char) : Bool :=
  !(c == '\n' || c == '\r' || c == '\u2028' || c == '\u2029')

/-- Existence of a match of dot-star followed by one of the literals: scans
forward over dot-matching characters looking for a literal occurrence. -/
def scanFor (lits : List String) : List Char → Bool
  | [] => false
  | c :: cs => lits.any (fun l => ciStarts l.data (c :: cs)) ||
      (isDotChar c && scanFor lits cs)

/-- All concatenations scheme ++ subdomain ++ core, the finitely many ways
the optional groups of a platform pattern can expand. -/
def combos (ps ws cs : List String) : List String :=
  ps.flatMap (fun p => ws.flatMap (fun w => cs.map (fun c => p ++ w ++ c)))

/-- Optional scheme group of every platform pattern. -/
def protoAlts : List String := ["", "http://", "https://"]

/-- Optional www subdomain group. -/
def wwwAlts : List String := ["", "www."]

/-- Expanded alternatives of the youtube pattern. -/
def youtubeAlts : List String :=
  combos protoAlts wwwAlts
    ["youtube.com/watch?v=", "youtube.com/shorts/", "youtu.be/"]

/-- Test of the youtube pattern against trimmed input characters. -/
def youtubeMatch (t : List Char) : Bool :=
  youtubeAlts.any (fun l => ciStarts l.data t)

/-- Expanded alternatives of the instagram pattern. -/
def instagramAlts : List String :=
  combos protoAlts wwwAlts
    ["instagram.com/reel/", "instagram.com/reels/", "instagram.com/p/"]

/-- Test of the instagram pattern. -/
def instagramMatch (t : List Char) : Bool :=
  instagramAlts.any (fun l => ciStarts l.data t)

/-- Expanded leading alternatives of the facebook pattern, before the
dot-star and the videos, watch, reel alternation. -/
def facebookAlts : List String :=
  combos protoAlts ["", "www.", "m.", "web."] ["facebook.com/"]

/-- Test of the facebook pattern: a leading alternative followed anywhere
after it (across dot-matching characters) by video, watch or reel. -/
def facebookMatch (t : List Char) : Bool :=
  facebookAlts.any (fun l =>
    match stripCi l.data t with
    | some rest => scanFor ["video", "watch", "reel"] rest
    | none => false)

/-- Expanded leading alternatives of the twitter pattern. -/
def twitterAlts : List String :=
  combos protoAlts wwwAlts ["twitter.com/", "x.com/"]

/-- Test of the twitter pattern: a leading alternative followed anywhere by
the status segment. -/
def twitterMatch (t : List Char) : Bool :=
  twitterAlts.any (fun l =>
    match stripCi l.data t with
    | some rest => scanFor ["/status/"] rest
    | none => false)

/-- Expanded alternatives of the tiktok pattern. -/
def tiktokAlts : List String :=
  combos protoAlts ["", "www.", "vm."] ["tiktok.com/"]

/-- Test of the tiktok pattern. -/
def tiktokMatch (t : List Char) : Bool :=
  tiktokAlts.any (fun l => ciStarts l.data t)

/-- Expanded alternatives of the vimeo pattern. -/
def vimeoAlts : List String :=
  combos protoAlts wwwAlts ["vimeo.com/"]

/-- Test of the vimeo pattern. -/
def vimeoMatch (t : List Char) : Bool :=
  vimeoAlts.any (fun l => ciStarts l.data t)

/-- Test of the anchored scheme regex used for the well-formedness check. -/
def hasHttpScheme (t : List Char) : Bool :=
  ciStarts ("http://").data t || ciStarts ("https://").data t

/-- Disjunction of the six platform signature tests, in source order. -/
def anyPlatformMatch (t : List Char) : Bool :=
  youtubeMatch t || instagramMatch t || facebookMatch t || twitterMatch t ||
  tiktokMatch t || vimeoMatch t

/-- Platform labels returned by detectPlatform. -/
inductive Platform
  | youtube
  | instagram
  | facebook
  | twitter
  | tiktok
  | vimeo
  | other
  | unknown
deriving DecidableEq, Repr

/-- Input of detectPlatform as seen from JS: either some string or a value
of another runtime type. -/
inductive JsInput
  | nonString
  | str (s : String)
deriving DecidableEq, Repr

/-- detectPlatform of the yt-dlp service: guards against falsy and
non-string input, then tries the platform patterns in insertion order on
the trimmed URL, then the bare scheme check. -/
def detectPlatform : JsInput → Platform
  | .nonString => .unknown
  | .str s =>
    if s = "" then .unknown
    else
      let t := jsTrim s
      if youtubeMatch t then .youtube
      else if instagramMatch t then .instagram
      else if facebookMatch t then .facebook
      else if twitterMatch t then .twitter
      else if tiktokMatch t then .tiktok
      else if vimeoMatch t then .vimeo
      else if hasHttpScheme t then .other
      else .unknown

/-- Result record of validateVideoUrl. -/
structure UrlValidation where
  isValid : Bool
  platform : Platform
  error : Option String
deriving DecidableEq, Repr

/-- validateVideoUrl of the yt-dlp service. -/
def validateVideoUrl : JsInput → UrlValidation
  | .nonString => ⟨false, .unknown, some ("URL is required")⟩
  | .str s =>
    if s = "" then ⟨false, .unknown, some ("URL is required")⟩
    else
      let t := jsTrim s
      if !hasHttpScheme t then
        ⟨false, .unknown, some ("URL must start with http:// or https://")⟩
      else ⟨true, detectPlatform (.str (⟨t⟩ : String)), none⟩

/-- Exact leading-segment test used by containsSub. -/
def litStarts : List Char → List Char → Bool
  | [], _ => true
  | _ :: _, [] => false
  | l :: ls, c :: cs => (c == l) && litStarts ls cs

/-- Substring containment test, the JS String includes method. -/
def containsSub (needle : List Char) : List Char → Bool
  | [] => needle.isEmpty
  | c :: cs => litStarts needle (c :: cs) || containsSub needle cs

/-- Image indicators searched for inside a lower-cased URL by
detectIfPhoto; note the list has no bmp entry. -/
def imageUrlIndicators : List String := [".jpg", ".jpeg", ".png", ".webp", ".gif"]

/-- detectIfPhoto of the yt-dlp service: media with absent or zero duration
counts as a photo exactly when a format extension or the payload URL gives
an image-extension signal. -/
def detectIfPhoto (info : YtDlpVideoInfo) : Bool :=
  if info.duration == none || info.duration == some 0 then
    let formatSignal : Bool :=
      match info.formats with
      | some fs => decide (fs.length > 0) &&
          fs.any (fun f => imageExtensions.contains (extLower f))
      | none => false
    if formatSignal then true
    else
      match info.url with
      | some u => imageUrlIndicators.any
          (fun ind => containsSub ind.data (lowerStr u).data)
      | none => false
  else false

/-- Short-circuit JS or on an optional string against a default, where the
empty string is falsy. -/
def jsOrStr (a : Option String) (b : String) : String :=
  match a with
  | some s => if s = "" then b else s
  | none => b

/-- Short-circuit JS or on an optional integer against a fallback, where
zero is falsy. -/
def jsOrInt (a : Option Int) (b : Option Int) : Option Int :=
  match a with
  | some n => if n = 0 then b else some n
  | none => b

/-- Media kind stored in VideoInfo. -/
inductive MediaType
  | video
  | photo
deriving DecidableEq, Repr

/-- Normalized VideoInfo record returned to the client. -/
structure VideoInfo where
  title : String
  thumbnail : String
  duration : Int
  uploader : String
  platform : Platform
  mediaType : MediaType
deriving DecidableEq, Repr

/-- toVideoInfo of the yt-dlp service. -/
def toVideoInfo (info : YtDlpVideoInfo) (platform : Platform) : VideoInfo :=
  let thumbAlt : String :=
    match info.thumbnails with
    | some ts =>
      if ts.length > 0 then
        match ts.getLast? with
        | some th => th.url
        | none => ""
      else ""
    | none => ""
  { title := jsOrStr info.title ("Unknown Title")
    thumbnail := jsOrStr info.thumbnail thumbAlt
    duration := info.duration.getD 0
    uploader := jsOrStr info.uploader (jsOrStr info.channel ("Unknown"))
    platform := platform
    mediaType := if detectIfPhoto info then .photo else .video }

/-- getQualityLabel of the yt-dlp service. -/
def getQualityLabel (height : Int) : String :=
  if height ≥ 2160 then "4K"
  else if height ≥ 1440 then "1440p"
  else if height ≥ 1080 then "1080p"
  else if height ≥ 720 then "720p"
  else if height ≥ 480 then "480p"
  else if height ≥ 360 then "360p"
  else if height ≥ 240 then "240p"
  else toString height ++ "p"

/-- Client-facing format projection (VideoFormat in types/video.ts). -/
structure VideoFormat where
  formatId : String
  ext : String
  resolution : String
  filesize : Option Int
  quality : String
deriving DecidableEq, Repr

/-- toVideoFormat of the yt-dlp service. -/
def toVideoFormat (f : YtDlpFormat) : VideoFormat :=
  { formatId := f.format_id
    ext := jsOrStr (some f.ext) ("mp4")
    resolution := jsOrStr f.resolution
      (toString (f.width.getD 0) ++ "x" ++ toString (f.height.getD 0))
    filesize := jsOrInt f.filesize (jsOrInt f.filesize_approx none)
    quality := getQualityLabel (f.height.getD 0) }

/-- Machine-readable error codes of VideoFetchError in types/video.ts. -/
inductive ErrorCode
  | INVALID_URL
  | UNSUPPORTED_PLATFORM
  | VIDEO_UNAVAILABLE
  | QUALITY_NOT_FOUND
  | YTDLP_ERROR
  | UNKNOWN_ERROR
deriving DecidableEq, Repr

/-- Literal string of each member of the code union in types/video.ts. -/
def codeName : ErrorCode → String
  | .INVALID_URL => "INVALID_URL"
  | .UNSUPPORTED_PLATFORM => "UNSUPPORTED_PLATFORM"
  | .VIDEO_UNAVAILABLE => "VIDEO_UNAVAILABLE"
  | .QUALITY_NOT_FOUND => "QUALITY_NOT_FOUND"
  | .YTDLP_ERROR => "YTDLP_ERROR"
  | .UNKNOWN_ERROR => "UNKNOWN_ERROR"

/-- Response of the POST route: a VideoFetchResponse or a VideoFetchError. -/
inductive ApiResult
  | success (info : VideoInfo) (downloadUrl : String) (selectedFormat : VideoFormat)
  | failure (error : String) (code : ErrorCode)
deriving DecidableEq, Repr

/-- Discriminant of an ApiResult, the success flag of the JSON response. -/
def isSuccess : ApiResult → Bool
  | .success _ _ _ => true
  | .failure _ _ => false

/-- Code of a failure ApiResult, none on success. -/
def codeOf : ApiResult → Option ErrorCode
  | .success _ _ _ => none
  | .failure _ c => some c

/-- Parsed request body of the route; url and quality are absent when the
field is missing or not a JS string. -/
inductive ReqBody
  | malformedJson
  | body (url : Option String) (quality : Option String)
deriving DecidableEq, Repr

/-- Outcome of the fetchVideoInfo call, abstracting the yt-dlp process:
either a parsed payload or a thrown error message. -/
inductive FetchOutcome
  | ok (info : YtDlpVideoInfo)
  | err (msg : String)
deriving DecidableEq, Repr

/-- Outcome of the getDownloadUrl call, abstracting the yt-dlp process. -/
inductive DlOutcome
  | ok (url : String)
  | err (msg : String)
deriving DecidableEq, Repr

/-- POST handler of the fetch-video route, as a function of the parsed
request body and of the outcomes of the two external yt-dlp invocations;
the unexpected flag models the global catch-all handler. -/
def POSTmodel (unexpected : Bool) (req : ReqBody) (fetch : FetchOutcome)
    (dl : DlOutcome) : ApiResult :=
  if unexpected then .failure ("An unexpected error occurred") .UNKNOWN_ERROR
  else
    match req with
    | .malformedJson => .failure ("Invalid JSON in request body") .INVALID_URL
    | .body urlField qualityField =>
      match urlField with
      | none => .failure ("URL is required") .INVALID_URL
      | some url =>
        if url = "" then .failure ("URL is required") .INVALID_URL
        else
          match qualityField with
          | none => .failure ("Quality must be either \"sd\" or \"hd\"") .INVALID_URL
          | some q =>
            if !(q == "sd" || q == "hd") then
              .failure ("Quality must be either \"sd\" or \"hd\"") .INVALID_URL
            else
              let quality : Quality := if q = "hd" then .hd else .sd
              let validation := validateVideoUrl (.str url)
              if !validation.isValid then
                .failure (validation.error.getD ("Invalid URL")) .UNSUPPORTED_PLATFORM
              else
                match fetch with
                | .err msg =>
                  let code : ErrorCode :=
                    if containsSub ("unavailable").data msg.data ||
                        containsSub ("private").data msg.data then
                      .VIDEO_UNAVAILABLE
                    else .YTDLP_ERROR
                  .failure msg code
                | .ok videoInfo =>
                  if videoInfo.formats == none || videoInfo.formats == some [] then
                    let topUrl : Option String :=
                      match videoInfo.url with
                      | some u => if u = "" then none else some u
                      | none => none
                    match topUrl with
                    | some directUrl =>
                      let info := toVideoInfo videoInfo validation.platform
                      .success info directUrl
                        ⟨"direct",
                         if info.mediaType = .photo then "jpg" else "mp4",
                         "Original", none, "Original"⟩
                    | none =>
                      .failure ("No formats available for this media") .QUALITY_NOT_FOUND
                  else
                    let formats := videoInfo.formats.getD []
                    let info := toVideoInfo videoInfo validation.platform
                    let isPhoto := info.mediaType = .photo
                    let selected :=
                      if isPhoto then selectPhotoFormat formats
                      else selectFormat formats quality
                    match selected with
                    | none =>
                      .failure
                        (if isPhoto then "No image format available for this photo"
                         else "No " ++ (if q = "hd" then "HD" else "SD") ++
                           " quality format available for this video")
                        .QUALITY_NOT_FOUND
                    | some f =>
                      let direct : Option String :=
                        match f.url with
                        | some u => if u = "" then none else some u
                        | none => none
                      match direct with
                      | some u => .success info u (toVideoFormat f)
                      | none =>
                        match dl with
                        | .ok u => .success info u (toVideoFormat f)
                        | .err msg => .failure msg .YTDLP_ERROR

/-- Inserting with insertLe permutes to consing. -/
theorem insertLe_perm {α : Type} (le : α → α → Bool) (x : α) :
    ∀ l : List α, List.Perm (insertLe le x l) (x :: l)
  | [] => List.Perm.refl _
  | y :: ys => by
    simp only [insertLe]
    split
    · exact List.Perm.refl _
    · exact ((insertLe_perm le x ys).cons y).trans (List.Perm.swap x y ys)

/-- sortLe permutes its input. -/
theorem sortLe_perm {α : Type} (le : α → α → Bool) :
    ∀ l : List α, List.Perm (sortLe le l) l
  | [] => List.Perm.refl _
  | x :: xs =>
    (insertLe_perm le x (sortLe le xs)).trans ((sortLe_perm le xs).cons x)

/-- Membership is preserved by sortLe. -/
theorem mem_sortLe {α : Type} {le : α → α → Bool} {a : α} {l : List α} :
    a ∈ sortLe le l ↔ a ∈ l :=
  (sortLe_perm le l).mem_iff

/-- Insertion with insertLe preserves pairwise ordering by a transitive
total comparator. -/
theorem pairwise_insertLe {α : Type} {le : α → α → Bool}
    (htrans : ∀ a b c : α, le a b → le b c → le a c)
    (htotal : ∀ a b, le a b || le b a) (x : α) :
    ∀ l : List α, l.Pairwise (fun a b => le a b = true) →
      (insertLe le x l).Pairwise (fun a b => le a b = true)
  | [], _ => List.pairwise_singleton _ x
  | y :: ys, hp => by
    rcases List.pairwise_cons.mp hp with ⟨hy, hys⟩
    simp only [insertLe]
    split
    · next hxy =>
      refine List.pairwise_cons.mpr ⟨?_, hp⟩
      intro z hz
      rcases List.mem_cons.mp hz with rfl | hz
      · exact hxy
      · exact htrans x y z hxy (hy z hz)
    · next hxy =>
      have hyx : le y x = true := by
        have h := htotal x y
        rcases Bool.or_eq_true_iff.mp h with h | h
        · exact absurd h hxy
        · exact h
      refine List.pairwise_cons.mpr ⟨?_, pairwise_insertLe htrans htotal x ys hys⟩
      intro z hz
      rcases (insertLe_perm le x ys).mem_iff.mp hz with hz'
      rcases List.mem_cons.mp hz' with rfl | hz'
      · exact hyx
      · exact hy z hz'

/-- The output of sortLe is pairwise ordered by a transitive total
comparator. -/
theorem pairwise_sortLe {α : Type} {le : α → α → Bool}
    (htrans : ∀ a b c : α, le a b → le b c → le a c)
    (htotal : ∀ a b, le a b || le b a) :
    ∀ l : List α, (sortLe le l).Pairwise (fun a b => le a b = true)
  | [] => List.Pairwise.nil
  | x :: xs =>
    pairwise_insertLe htrans htotal x (sortLe le xs)
      (pairwise_sortLe htrans htotal xs)

/-- Payload with zero duration, no formats, and a URL ending in a bmp
extension; bmp is in the image-extension set of the claim but not in the
URL indicator list of the source. -/
def bmpUrlInfo : YtDlpVideoInfo :=
  ⟨none, none, none, some 0, none, none, none, some ("http://host/pic.bmp")⟩

/-- Counterexample to C8: this payload has zero duration and its URL
contains the image extension bmp, so the claim says the media kind is
photo; detectIfPhoto returns false because the URL indicator list of the
source omits bmp. -/
theorem detectIfPhoto_counterexample :
    detectIfPhoto bmpUrlInfo = false ∧
    bmpUrlInfo.duration = some 0 ∧
    containsSub (String.data (".bmp")) (lowerStr ("http://host/pic.bmp")).data
      = true := by decide

/-- C8 amended: media-kind derivation yields photo exactly when the
duration is absent or zero and either some format has a lower-cased image
extension, or the lower-cased URL contains one of the five URL indicators
.jpg, .jpeg, .png, .webp, .gif; bmp corroborates only as a format
extension, never as a URL indicator. -/
theorem detectIfPhoto_spec (info : YtDlpVideoInfo) :
    detectIfPhoto info = true ↔
      ((info.duration = none ∨ info.duration = some 0) ∧
        ((∃ fs, info.formats = some fs ∧
            ∃ f ∈ fs, imageExtensions.contains (extLower f) = true) ∨
          (∃ u, info.url = some u ∧
            ∃ ind ∈ imageUrlIndicators,
              containsSub ind.data (lowerStr u).data = true))) := by
  unfold detectIfPhoto
  by_cases hdur : info.duration = none ∨ info.duration = some 0
  · have hb : (info.duration == none || info.duration == some 0) = true := by
      rcases hdur with h | h <;> simp [h]
    rw [if_pos hb]
    cases hfs : info.formats with
    | none =>
      cases hurl : info.url with
      | none => simp [hdur]
      | some u => simp [hdur, List.any_eq_true]
    | some fs =>
      cases hurl : info.url with
      | none =>
        simp [hdur, List.any_eq_true]
        exact fun x hx _ => List.length_pos_of_mem hx
      | some u =>
        simp [hdur, List.any_eq_true]
        constructor
        · rintro (⟨_, hex⟩ | hx)
          · exact Or.inl hex
          · exact Or.inr hx
        · rintro (hex | hx)
          · rcases hex with ⟨x, hx, he⟩
            exact Or.inl ⟨List.length_pos_of_mem hx, x, hx, he⟩
          · exact Or.inr hx
  · have hb : (info.duration == none || info.duration == some 0) = false := by
      rcases Option.eq_none_or_eq_some info.duration with h | ⟨v, h⟩
      · exact absurd (Or.inl h) hdur
      · have hv : v ≠ 0 := by
          intro h0
          exact hdur (Or.inr (by rw [h, h0]))
        simp [h, hv]
    rw [if_neg (by rw [hb]; exact Bool.false_ne_true)]
    simp [hdur]

/-- Payload with zero duration and a single jpg format, the photo example
of the spec. -/
def jpgPhotoInfo : YtDlpVideoInfo :=
  ⟨none, none, none, some 0, none, none,
   some [⟨"p", "jpg", none, none, none, none, none, none, none, none, none⟩],
   none⟩

/-- Witness for C8 amended at the spec examples: the jpg payload is a
photo (through the theorem), and the same duration with only an mp4
format is not. -/
theorem detectIfPhoto_spec_witness :
    detectIfPhoto jpgPhotoInfo = true ∧
    detectIfPhoto
      ⟨none, none, none, some 0, none, none,
       some [⟨"v", "mp4", none, none, none, none, none, none, none, none,
         none⟩], none⟩ = false :=
  ⟨(detectIfPhoto_spec jpgPhotoInfo).mpr
    ⟨Or.inr rfl,
     Or.inl ⟨[⟨"p", "jpg", none, none, none, none, none, none, none, none,
       none⟩], rfl,
       ⟨"p", "jpg", none, none, none, none, none, none, none, none, none⟩,
       by decide, by decide⟩⟩,
   by decide⟩

/-- Counterexample to C3: this URL lacks an http or https scheme, so the
claim says classification returns unknown; detectPlatform returns youtube
because the scheme group is optional in every platform pattern. -/
theorem detectPlatform_counterexample :
    detectPlatform (JsInput.str ("youtube.com/watch?v=abc")) =
      Platform.youtube ∧
    hasHttpScheme (jsTrim ("youtube.com/watch?v=abc")) = false := by decide

/-- C3 amended: detectPlatform is total; it returns unknown exactly on
non-strings, the empty string, and strings that match no platform
signature and lack an http or https scheme after trimming; it returns
other exactly on nonempty strings that match no signature but carry a
scheme; and a string matching some signature is classified as a platform
tag even without a scheme, since the scheme is optional in every
pattern. -/
theorem detectPlatform_spec (i : JsInput) :
    (detectPlatform i = Platform.unknown ↔
      (i = JsInput.nonString ∨ i = JsInput.str "" ∨
        ∃ s, i = JsInput.str s ∧ s ≠ "" ∧
          anyPlatformMatch (jsTrim s) = false ∧
          hasHttpScheme (jsTrim s) = false)) ∧
    (detectPlatform i = Platform.other ↔
      (∃ s, i = JsInput.str s ∧ s ≠ "" ∧
        anyPlatformMatch (jsTrim s) = false ∧
        hasHttpScheme (jsTrim s) = true)) ∧
    (∀ s, i = JsInput.str s → s ≠ "" → anyPlatformMatch (jsTrim s) = true →
      detectPlatform i ≠ Platform.other ∧
      detectPlatform i ≠ Platform.unknown) := by
  cases i with
  | nonString => refine ⟨?_, ?_, ?_⟩ <;> simp [detectPlatform]
  | str s =>
    by_cases hs : s = ""
    · subst hs
      refine ⟨?_, ?_, ?_⟩ <;> simp [detectPlatform]
    · cases hy : youtubeMatch (jsTrim s) with
      | true =>
        have hres : detectPlatform (JsInput.str s) = Platform.youtube := by
          simp [detectPlatform, hs, hy]
        have hany : anyPlatformMatch (jsTrim s) = true := by
          simp [anyPlatformMatch, hy]
        refine ⟨?_, ?_, ?_⟩ <;> simp [hres, hany, hs]
      | false =>
      cases hi : instagramMatch (jsTrim s) with
      | true =>
        have hres : detectPlatform (JsInput.str s) = Platform.instagram := by
          simp [detectPlatform, hs, hy, hi]
        have hany : anyPlatformMatch (jsTrim s) = true := by
          simp [anyPlatformMatch, hi]
        refine ⟨?_, ?_, ?_⟩ <;> simp [hres, hany, hs]
      | false =>
      cases hf : facebookMatch (jsTrim s) with
      | true =>
        have hres : detectPlatform (JsInput.str s) = Platform.facebook := by
          simp [detectPlatform, hs, hy, hi, hf]
        have hany : anyPlatformMatch (jsTrim s) = true := by
          simp [anyPlatformMatch, hf]
        refine ⟨?_, ?_, ?_⟩ <;> simp [hres, hany, hs]
      | false =>
      cases ht : twitterMatch (jsTrim s) with
      | true =>
        have hres : detectPlatform (JsInput.str s) = Platform.twitter := by
          simp [detectPlatform, hs, hy, hi, hf, ht]
        have hany : anyPlatformMatch (jsTrim s) = true := by
          simp [anyPlatformMatch, ht]
        refine ⟨?_, ?_, ?_⟩ <;> simp [hres, hany, hs]
      | false =>
      cases hk : tiktokMatch (jsTrim s) with
      | true =>
        have hres : detectPlatform (JsInput.str s) = Platform.tiktok := by
          simp [detectPlatform, hs, hy, hi, hf, ht, hk]
        have hany : anyPlatformMatch (jsTrim s) = true := by
          simp [anyPlatformMatch, hk]
        refine ⟨?_, ?_, ?_⟩ <;> simp [hres, hany, hs]
      | false =>
      cases hv : vimeoMatch (jsTrim s) with
      | true =>
        have hres : detectPlatform (JsInput.str s) = Platform.vimeo := by
          simp [detectPlatform, hs, hy, hi, hf, ht, hk, hv]
        have hany : anyPlatformMatch (jsTrim s) = true := by
          simp [anyPlatformMatch, hv]
        refine ⟨?_, ?_, ?_⟩ <;> simp [hres, hany, hs]
      | false =>
        have hanyf : anyPlatformMatch (jsTrim s) = false := by
          simp [anyPlatformMatch, hy, hi, hf, ht, hk, hv]
        cases hh : hasHttpScheme (jsTrim s) with
        | true =>
          have hres : detectPlatform (JsInput.str s) = Platform.other := by
            simp [detectPlatform, hs, hy, hi, hf, ht, hk, hv, hh]
          refine ⟨?_, ?_, ?_⟩ <;> simp [hres, hanyf, hs, hh]
        | false =>
          have hres : detectPlatform (JsInput.str s) = Platform.unknown := by
            simp [detectPlatform, hs, hy, hi, hf, ht, hk, hv, hh]
          refine ⟨?_, ?_, ?_⟩ <;> simp [hres, hanyf, hs, hh]

/-- Witness for C3 amended: a vimeo URL is classified neither other nor
unknown, discharging the hypotheses of the signature clause. -/
theorem detectPlatform_spec_witness :
    detectPlatform (JsInput.str ("https://vimeo.com/123")) ≠
      Platform.other ∧
    detectPlatform (JsInput.str ("https://vimeo.com/123")) ≠
      Platform.unknown :=
  (detectPlatform_spec (JsInput.str ("https://vimeo.com/123"))).2.2
    ("https://vimeo.com/123") rfl (by decide) (by decide)

/-- Payload with an empty formats list but a direct top-level URL. -/
def emptyFormatsInfo : YtDlpVideoInfo :=
  ⟨some ("t"), none, none, some 5, none, none, some [],
   some ("http://host/direct.mp4")⟩

/-- Counterexample to C4: an upstream payload with an empty formats list
but a direct top-level URL makes the handler return a success response,
not a failure. -/
theorem empty_formats_success_counterexample :
    isSuccess (POSTmodel false
      (ReqBody.body (some ("http://example.com/v")) (some ("sd")))
      (FetchOutcome.ok emptyFormatsInfo) (DlOutcome.ok ("u"))) = true := by
  decide

/-- C4 amended: when the fetched payload has an empty or missing formats
list and its top-level URL is missing or empty (the source tests it for
JS truthiness), the handler never returns a success response, whatever
the request and the second yt-dlp call do. -/
theorem empty_formats_failure (unexpected : Bool) (req : ReqBody)
    (info : YtDlpVideoInfo) (dl : DlOutcome)
    (hfmt : info.formats = none ∨ info.formats = some [])
    (hurl : info.url = none ∨ info.url = some "") :
    isSuccess (POSTmodel unexpected req (FetchOutcome.ok info) dl)
      = false := by
  have hb : (info.formats == none || info.formats == some []) = true := by
    rcases hfmt with h | h <;> simp [h]
  cases unexpected with
  | true => rfl
  | false =>
  cases req with
  | malformedJson => rfl
  | body urlField qualityField =>
  cases urlField with
  | none => rfl
  | some url =>
  by_cases hu : url = ""
  · simp [POSTmodel, hu, isSuccess]
  · cases qualityField with
    | none => simp [POSTmodel, hu, isSuccess]
    | some q =>
    cases hq : (q == "sd" || q == "hd") with
    | false => simp [POSTmodel, hu, hq, isSuccess]
    | true =>
      cases hv : (validateVideoUrl (JsInput.str url)).isValid with
      | false => simp [POSTmodel, hu, hq, hv, isSuccess]
      | true =>
        rcases hurl with h | h <;>
          simp [POSTmodel, hu, hq, hv, hb, h, isSuccess]

/-- Payload with no formats and no URL, used by the C4 witness. -/
def noFormatsNoUrlInfo : YtDlpVideoInfo :=
  ⟨some ("t"), none, none, some 5, none, none, none, none⟩

/-- Payload with an empty formats list and an empty-string URL, the falsy
direct-URL case of the C4 witness. -/
def noFormatsEmptyUrlInfo : YtDlpVideoInfo :=
  ⟨some ("t"), none, none, some 5, none, none, some [], some ("")⟩

/-- Witness for C4 amended at concrete requests and payloads, discharging
the hypotheses once with a missing URL and once with an empty-string
URL. -/
theorem empty_formats_failure_witness :
    isSuccess (POSTmodel false
      (ReqBody.body (some ("http://example.com/v")) (some ("sd")))
      (FetchOutcome.ok noFormatsNoUrlInfo) (DlOutcome.ok ("u")))
      = false ∧
    isSuccess (POSTmodel false
      (ReqBody.body (some ("http://example.com/v")) (some ("sd")))
      (FetchOutcome.ok noFormatsEmptyUrlInfo) (DlOutcome.ok ("u")))
      = false :=
  ⟨empty_formats_failure false
    (ReqBody.body (some ("http://example.com/v")) (some ("sd")))
    noFormatsNoUrlInfo (DlOutcome.ok ("u")) (Or.inl rfl) (Or.inl rfl),
   empty_formats_failure false
    (ReqBody.body (some ("http://example.com/v")) (some ("sd")))
    noFormatsEmptyUrlInfo (DlOutcome.ok ("u")) (Or.inr rfl) (Or.inr rfl)⟩

/-- Error-code strings enumerated by the claim. -/
def claimedCodes : List String :=
  ["INVALID_URL", "UNSUPPORTED_PLATFORM", "MEDIA_UNAVAILABLE",
   "QUALITY_NOT_FOUND", "EXTRACTION_ERROR", "UNKNOWN_ERROR"]

/-- Error-code strings of the code union in types/video.ts. -/
def actualCodes : List String :=
  ["INVALID_URL", "UNSUPPORTED_PLATFORM", "VIDEO_UNAVAILABLE",
   "QUALITY_NOT_FOUND", "YTDLP_ERROR", "UNKNOWN_ERROR"]

/-- Counterexample to C5: a failed fetch with a generic message produces a
failure response whose code YTDLP_ERROR is outside the claimed set, which
names EXTRACTION_ERROR and MEDIA_UNAVAILABLE instead of the YTDLP_ERROR
and VIDEO_UNAVAILABLE the code uses. -/
theorem error_code_counterexample :
    codeOf (POSTmodel false
      (ReqBody.body (some ("http://example.com/v")) (some ("sd")))
      (FetchOutcome.err ("boom")) (DlOutcome.ok ("u")))
      = some ErrorCode.YTDLP_ERROR ∧
    claimedCodes.contains (codeName ErrorCode.YTDLP_ERROR) = false := by
  decide

/-- C5 amended: every failure response of the handler carries a code drawn
from the union in types/video.ts: INVALID_URL, UNSUPPORTED_PLATFORM,
VIDEO_UNAVAILABLE, QUALITY_NOT_FOUND, YTDLP_ERROR, UNKNOWN_ERROR. -/
theorem failure_codes_in_union (unexpected : Bool) (req : ReqBody)
    (fetch : FetchOutcome) (dl : DlOutcome) (e : String) (c : ErrorCode)
    (h : POSTmodel unexpected req fetch dl = ApiResult.failure e c) :
    actualCodes.contains (codeName c) = true := by
  cases c <;> rfl

/-- Witness for C5 amended at the catch-all failure of a concrete run. -/
theorem failure_codes_in_union_witness :
    actualCodes.contains (codeName ErrorCode.UNKNOWN_ERROR) = true :=
  failure_codes_in_union true ReqBody.malformedJson
    (FetchOutcome.ok noFormatsNoUrlInfo) (DlOutcome.ok ("u"))
    ("An unexpected error occurred") ErrorCode.UNKNOWN_ERROR rfl

/-- Reflexivity of a total boolean comparator. -/
theorem le_self_of_total {α : Type} {le : α → α → Bool}
    (htotal : ∀ a b, le a b || le b a) (a : α) : le a a = true := by
  have h := htotal a a
  simpa using h

/-- Head of a list under a pairwise boolean relation bounds every member. -/
theorem head_le_of_pairwise {α : Type} {le : α → α → Bool}
    (htotal : ∀ a b, le a b || le b a)
    {m : List α} (hp : m.Pairwise (fun a b => le a b = true))
    {h : α} (hm : m.head? = some h) :
    h ∈ m ∧ ∀ g ∈ m, le h g = true := by
  cases m with
  | nil => cases hm
  | cons x t =>
    have hx : x = h := by
      simpa using hm
    subst hx
    rcases List.pairwise_cons.mp hp with ⟨hhead, _⟩
    refine ⟨List.mem_cons_self x t, ?_⟩
    intro g hg
    rcases List.mem_cons.mp hg with hg | hg
    · subst hg; exact le_self_of_total htotal g
    · exact hhead g hg

/-- Last element of a list under a pairwise boolean relation is bounded by
every member. -/
theorem getLast_ge_of_pairwise {α : Type} {le : α → α → Bool} :
    ∀ (m : List α), m.Pairwise (fun a b => le a b = true) →
      (htotal : ∀ a b, le a b || le b a) → ∀ z, m.getLast? = some z →
      z ∈ m ∧ ∀ x ∈ m, le x z = true
  | [], _, _, z, hz => by cases hz
  | [a], hp, htotal, z, hz => by
    have ha : a = z := by simpa using hz
    subst ha
    exact ⟨List.mem_singleton_self a, by
      intro x hx
      rcases List.mem_singleton.mp hx with rfl
      exact le_self_of_total htotal x⟩
  | a :: b :: t, hp, htotal, z, hz => by
    rw [List.getLast?_cons_cons] at hz
    rcases List.pairwise_cons.mp hp with ⟨hhead, hrest⟩
    rcases getLast_ge_of_pairwise (b :: t) hrest htotal z hz with ⟨hzm, hall⟩
    refine ⟨List.mem_cons_of_mem a hzm, ?_⟩
    intro x hx
    rcases List.mem_cons.mp hx with hx | hx
    · subst hx; exact hhead z hzm
    · exact hall x hx

/-- Head of a sortLe result is a minimum of the list relative to a
transitive total boolean comparator. -/
theorem sortLe_head_min {α : Type} {le : α → α → Bool}
    (htrans : ∀ a b c : α, le a b → le b c → le a c)
    (htotal : ∀ a b, le a b || le b a)
    {l : List α} (hne : l ≠ []) :
    ∃ h, (sortLe le l).head? = some h ∧ h ∈ l ∧ ∀ g ∈ l, le h g = true := by
  have hperm := sortLe_perm le l
  have hsort := pairwise_sortLe htrans htotal l
  cases hm : sortLe le l with
  | nil =>
    rw [hm] at hperm
    exact absurd hperm.symm.eq_nil hne
  | cons h t =>
    rw [hm] at hsort
    rcases head_le_of_pairwise htotal hsort rfl with ⟨_, hall⟩
    refine ⟨h, rfl, ?_, ?_⟩
    · exact mem_sortLe.mp (by rw [hm]; exact List.mem_cons_self h t)
    · intro g hg
      have : g ∈ h :: t := by
        rw [← hm]; exact mem_sortLe.mpr hg
      exact hall g this

/-- Last element of a sortLe result is a maximum of the list relative to a
transitive total boolean comparator. -/
theorem sortLe_getLast_max {α : Type} {le : α → α → Bool}
    (htrans : ∀ a b c : α, le a b → le b c → le a c)
    (htotal : ∀ a b, le a b || le b a)
    {l : List α} (hne : l ≠ []) :
    ∃ z, (sortLe le l).getLast? = some z ∧ z ∈ l ∧
      ∀ g ∈ l, le g z = true := by
  have hperm := sortLe_perm le l
  have hsort := pairwise_sortLe htrans htotal l
  cases hz : (sortLe le l).getLast? with
  | none =>
    rw [List.getLast?_eq_none_iff] at hz
    rw [hz] at hperm
    exact absurd hperm.symm.eq_nil hne
  | some z =>
    rcases getLast_ge_of_pairwise (sortLe le l) hsort htotal z hz with ⟨hzm, hall⟩
    refine ⟨z, rfl, mem_sortLe.mp hzm, ?_⟩
    intro g hg
    exact hall g (mem_sortLe.mpr hg)

/-- Transitivity of the descending-height comparator. -/
theorem descH_trans : ∀ a b c : YtDlpFormat,
    descH a b → descH b c → descH a c := by
  intro a b c hab hbc
  simp only [descH, decide_eq_true_eq] at *
  omega

/-- Totality of the descending-height comparator. -/
theorem descH_total : ∀ a b : YtDlpFormat, descH a b || descH b a := by
  intro a b
  simp only [descH, Bool.or_eq_true, decide_eq_true_eq]
  omega

/-- Transitivity of the hd distance comparator. -/
theorem hdLe_trans : ∀ a b c : YtDlpFormat × Nat,
    hdLe a b → hdLe b c → hdLe a c := by
  intro a b c hab hbc
  simp only [hdLe, Bool.or_eq_true, Bool.and_eq_true, decide_eq_true_eq] at *
  omega

/-- Totality of the hd distance comparator. -/
theorem hdLe_total : ∀ a b : YtDlpFormat × Nat, hdLe a b || hdLe b a := by
  intro a b
  simp only [hdLe, Bool.or_eq_true, Bool.and_eq_true, decide_eq_true_eq]
  omega

/-- Transitivity of the photo comparator. -/
theorem photoLe_trans : ∀ a b c : YtDlpFormat,
    photoLe a b → photoLe b c → photoLe a c := by
  intro a b c hab hbc
  by_cases h1 : area a = area b
  · by_cases h2 : area b = area c
    · have h3 : area a = area c := h1.trans h2
      simp only [photoLe, if_pos h1, if_pos h2, if_pos h3, decide_eq_true_eq] at *
      omega
    · have h3 : area a ≠ area c := by rw [h1]; exact h2
      simp only [photoLe, if_pos h1, if_neg h2, if_neg h3, decide_eq_true_eq] at *
      omega
  · by_cases h2 : area b = area c
    · have h3 : area a ≠ area c := by rw [← h2]; exact h1
      simp only [photoLe, if_neg h1, if_pos h2, if_neg h3, decide_eq_true_eq] at *
      omega
    · have hab' : area b ≤ area a := by
        simpa only [photoLe, if_neg h1, decide_eq_true_eq] using hab
      have hbc' : area c ≤ area b := by
        simpa only [photoLe, if_neg h2, decide_eq_true_eq] using hbc
      have h3 : area a ≠ area c := by omega
      simp only [photoLe, if_neg h1, if_neg h2, if_neg h3, decide_eq_true_eq] at *
      omega

/-- Totality of the photo comparator. -/
theorem photoLe_total : ∀ a b : YtDlpFormat, photoLe a b || photoLe b a := by
  intro a b
  by_cases h : area a = area b
  · simp only [photoLe, if_pos h, if_pos h.symm, Bool.or_eq_true, decide_eq_true_eq]
    omega
  · have h' : area b ≠ area a := fun e => h e.symm
    simp only [photoLe, if_neg h, if_neg h', Bool.or_eq_true, decide_eq_true_eq]
    omega

/-- Whatever selectFromFormats returns is an element of its input list. -/
theorem selectFromFormats_mem {l : List YtDlpFormat} {q : Quality}
    {r : YtDlpFormat} (h : selectFromFormats l q = some r) : r ∈ l := by
  cases q with
  | sd =>
    simp only [selectFromFormats] at h
    split at h
    · rcases List.head?_eq_some_iff.mp h with ⟨ys, hys⟩
      have hmem : r ∈ (sortLe descH l).filter
          (fun f => decide (heightD f ≤ SD_MAX_HEIGHT)) := by
        rw [hys]; exact List.mem_cons_self _ _
      exact mem_sortLe.mp (List.mem_of_mem_filter hmem)
    · exact mem_sortLe.mp (List.mem_of_mem_getLast? h)
  | hd =>
    simp only [selectFromFormats] at h
    split at h
    · next f heq =>
      cases h
      exact mem_sortLe.mp (List.mem_of_find?_eq_some heq)
    · next heq =>
      rcases Option.map_eq_some'.mp h with ⟨pr, hpr, hfst⟩
      rcases List.head?_eq_some_iff.mp hpr with ⟨ys, hys⟩
      have hmem : pr ∈ sortLe hdLe ((sortLe descH l).map
          (fun f => (f, distTo1080 f))) := by
        rw [hys]; exact List.mem_cons_self _ _
      rcases List.mem_map.mp (mem_sortLe.mp hmem) with ⟨f, hf, hfe⟩
      have : f = r := by rw [← hfst, ← hfe]
      exact this ▸ mem_sortLe.mp hf

/-- selectFromFormats succeeds on any nonempty input list. -/
theorem selectFromFormats_isSome {l : List YtDlpFormat} (hne : l ≠ [])
    (q : Quality) : ∃ r, selectFromFormats l q = some r := by
  have hms : sortLe descH l ≠ [] := by
    intro h
    exact hne ((h ▸ sortLe_perm descH l).symm.eq_nil)
  cases q with
  | sd =>
    simp only [selectFromFormats]
    split
    · next hlen =>
      cases hl : ((sortLe descH l).filter
          (fun f => decide (heightD f ≤ SD_MAX_HEIGHT))) with
      | nil => rw [hl] at hlen; simp at hlen
      | cons x t => exact ⟨x, rfl⟩
    · cases hg : (sortLe descH l).getLast? with
      | none => exact absurd (List.getLast?_eq_none_iff.mp hg) hms
      | some z => exact ⟨z, rfl⟩
  | hd =>
    simp only [selectFromFormats]
    split
    · next f heq => exact ⟨f, rfl⟩
    · next heq =>
      cases hl : sortLe hdLe ((sortLe descH l).map
          (fun f => (f, distTo1080 f))) with
      | nil =>
        have : ((sortLe descH l).map (fun f => (f, distTo1080 f))) = [] :=
          ((hl ▸ sortLe_perm hdLe _).symm.eq_nil)
        rcases List.map_eq_nil_iff.mp this with hempty
        exact absurd hempty hms
      | cons pr t => exact ⟨pr.1, rfl⟩

/-- Equation of the sd branch when sd candidates exist. -/
theorem selectFromFormats_sd_pos {fs : List YtDlpFormat}
    (hlen : ((sortLe descH fs).filter
      (fun f => decide (heightD f ≤ SD_MAX_HEIGHT))).length > 0) :
    selectFromFormats fs .sd = ((sortLe descH fs).filter
      (fun f => decide (heightD f ≤ SD_MAX_HEIGHT))).head? := by
  simp only [selectFromFormats]
  rw [if_pos hlen]

/-- Equation of the sd branch when no sd candidate exists. -/
theorem selectFromFormats_sd_neg {fs : List YtDlpFormat}
    (hlen : ¬ ((sortLe descH fs).filter
      (fun f => decide (heightD f ≤ SD_MAX_HEIGHT))).length > 0) :
    selectFromFormats fs .sd = (sortLe descH fs).getLast? := by
  simp only [selectFromFormats]
  rw [if_neg hlen]

/-- Equation of the hd branch when an exact 1080 format is found. -/
theorem selectFromFormats_hd_found {fs : List YtDlpFormat} {f : YtDlpFormat}
    (h : (sortLe descH fs).find?
      (fun f => f.height == some HD_TARGET_HEIGHT) = some f) :
    selectFromFormats fs .hd = some f := by
  simp only [selectFromFormats]
  rw [h]

/-- Equation of the hd branch when no exact 1080 format exists. -/
theorem selectFromFormats_hd_none {fs : List YtDlpFormat}
    (h : (sortLe descH fs).find?
      (fun f => f.height == some HD_TARGET_HEIGHT) = none) :
    selectFromFormats fs .hd = (sortLe hdLe ((sortLe descH fs).map
      (fun f => (f, distTo1080 f)))).head?.map Prod.fst := by
  simp only [selectFromFormats]
  rw [h]

/-- C2: on a nonempty list of formats with known positive heights, the sd
tier returns the format of greatest height at most 480 when one exists,
and otherwise the format of smallest height overall; it never fails. -/
theorem sd_tier_selection (fs : List YtDlpFormat) (hne : fs ≠ [])
    (hpos : ∀ f ∈ fs, f.height ≠ none ∧ 0 < heightD f) :
    ∃ r, selectFromFormats fs .sd = some r ∧ r ∈ fs ∧
      ((∃ f ∈ fs, heightD f ≤ SD_MAX_HEIGHT) →
        heightD r ≤ SD_MAX_HEIGHT ∧
        ∀ g ∈ fs, heightD g ≤ SD_MAX_HEIGHT → heightD g ≤ heightD r) ∧
      ((∀ f ∈ fs, SD_MAX_HEIGHT < heightD f) →
        ∀ g ∈ fs, heightD r ≤ heightD g) := by
  by_cases hc : ∃ f ∈ fs, heightD f ≤ SD_MAX_HEIGHT
  · obtain ⟨f0, hf0, hle0⟩ := hc
    have hf0s : f0 ∈ (sortLe descH fs).filter
        (fun f => decide (heightD f ≤ SD_MAX_HEIGHT)) :=
      List.mem_filter.mpr ⟨mem_sortLe.mpr hf0, by simpa using hle0⟩
    have hlen : ((sortLe descH fs).filter
        (fun f => decide (heightD f ≤ SD_MAX_HEIGHT))).length > 0 :=
      List.length_pos.mpr (List.ne_nil_of_mem hf0s)
    have hpw : ((sortLe descH fs).filter
        (fun f => decide (heightD f ≤ SD_MAX_HEIGHT))).Pairwise
        (fun a b => descH a b = true) :=
      (pairwise_sortLe descH_trans descH_total fs).filter _
    cases hh : ((sortLe descH fs).filter
        (fun f => decide (heightD f ≤ SD_MAX_HEIGHT))).head? with
    | none =>
      rw [List.head?_eq_none_iff] at hh
      rw [hh] at hlen
      simp at hlen
    | some h =>
      rcases head_le_of_pairwise descH_total hpw hh with ⟨hmem, hall⟩
      have hmemf := List.mem_filter.mp hmem
      have hfs : h ∈ fs := mem_sortLe.mp hmemf.1
      have h480 : heightD h ≤ SD_MAX_HEIGHT := by
        have := hmemf.2
        simpa using this
      refine ⟨h, ?_, hfs, ?_, ?_⟩
      · rw [selectFromFormats_sd_pos hlen]; exact hh
      · intro _
        refine ⟨h480, ?_⟩
        intro g hg hgle
        have hgmem : g ∈ (sortLe descH fs).filter
            (fun f => decide (heightD f ≤ SD_MAX_HEIGHT)) :=
          List.mem_filter.mpr ⟨mem_sortLe.mpr hg, by simpa using hgle⟩
        have := hall g hgmem
        simpa [descH] using this
      · intro hgt g hg
        have := hgt h hfs
        omega
  · have hemp : ((sortLe descH fs).filter
        (fun f => decide (heightD f ≤ SD_MAX_HEIGHT))) = [] := by
      rw [List.filter_eq_nil_iff]
      intro x hx
      simp only [decide_eq_true_eq]
      intro hle
      exact hc ⟨x, mem_sortLe.mp hx, hle⟩
    have hlen : ¬ ((sortLe descH fs).filter
        (fun f => decide (heightD f ≤ SD_MAX_HEIGHT))).length > 0 := by
      rw [hemp]; simp
    rcases sortLe_getLast_max descH_trans descH_total hne
      with ⟨z, hz, hzm, hzall⟩
    refine ⟨z, ?_, hzm, ?_, ?_⟩
    · rw [selectFromFormats_sd_neg hlen]; exact hz
    · intro hex; exact absurd hex hc
    · intro _ g hg
      have := hzall g hg
      simpa [descH] using this

/-- C1: on a nonempty list of formats with known positive heights, the hd
tier returns a format of height exactly 1080 when one exists; otherwise it
returns a format minimizing the distance of the height to 1080, and any
equidistant candidate has height at most that of the returned format. -/
theorem hd_tier_selection (fs : List YtDlpFormat) (hne : fs ≠ [])
    (hpos : ∀ f ∈ fs, f.height ≠ none ∧ 0 < heightD f) :
    ∃ r, selectFromFormats fs .hd = some r ∧ r ∈ fs ∧
      ((∃ f ∈ fs, f.height = some HD_TARGET_HEIGHT) →
        r.height = some HD_TARGET_HEIGHT) ∧
      ((∀ f ∈ fs, f.height ≠ some HD_TARGET_HEIGHT) →
        (∀ g ∈ fs, distTo1080 r ≤ distTo1080 g) ∧
        (∀ g ∈ fs, distTo1080 g = distTo1080 r → heightD g ≤ heightD r)) := by
  by_cases hex : ∃ f ∈ fs, f.height = some HD_TARGET_HEIGHT
  · obtain ⟨f0, hf0, h1080⟩ := hex
    have hsome : ((sortLe descH fs).find?
        (fun f => f.height == some HD_TARGET_HEIGHT)).isSome := by
      rw [List.find?_isSome]
      exact ⟨f0, mem_sortLe.mpr hf0, by simp [h1080]⟩
    rcases Option.isSome_iff_exists.mp hsome with ⟨y, hy⟩
    have py : y.height = some HD_TARGET_HEIGHT := by
      have := List.find?_some hy
      simpa using this
    have ymem : y ∈ fs := mem_sortLe.mp (List.mem_of_find?_eq_some hy)
    refine ⟨y, selectFromFormats_hd_found hy, ymem, fun _ => py, ?_⟩
    intro hno
    exact absurd py (hno y ymem)
  · have hfind : ((sortLe descH fs).find?
        (fun f => f.height == some HD_TARGET_HEIGHT)) = none := by
      rw [List.find?_eq_none]
      intro x hx
      simp only [beq_iff_eq]
      intro hx1080
      exact hex ⟨x, mem_sortLe.mp hx, hx1080⟩
    have hwne : ((sortLe descH fs).map (fun f => (f, distTo1080 f))) ≠ [] := by
      intro h
      rcases List.map_eq_nil_iff.mp h with hempty
      exact hne ((hempty ▸ sortLe_perm descH fs).symm.eq_nil)
    rcases sortLe_head_min hdLe_trans hdLe_total hwne
      with ⟨pr, hh, hprm, hall⟩
    rcases List.mem_map.mp hprm with ⟨f, hf, hfe⟩
    subst hfe
    have hffs : f ∈ fs := mem_sortLe.mp hf
    refine ⟨f, ?_, hffs, ?_, ?_⟩
    · rw [selectFromFormats_hd_none hfind, hh]; rfl
    · intro hex'; exact absurd hex' hex
    · intro _
      constructor
      · intro g hg
        have hgm : (g, distTo1080 g) ∈ ((sortLe descH fs).map
            (fun f => (f, distTo1080 f))) :=
          List.mem_map_of_mem _ (mem_sortLe.mpr hg)
        have := hall (g, distTo1080 g) hgm
        simp only [hdLe, Bool.or_eq_true, Bool.and_eq_true,
          decide_eq_true_eq] at this
        omega
      · intro g hg hdist
        have hgm : (g, distTo1080 g) ∈ ((sortLe descH fs).map
            (fun f => (f, distTo1080 f))) :=
          List.mem_map_of_mem _ (mem_sortLe.mpr hg)
        have := hall (g, distTo1080 g) hgm
        simp only [hdLe, Bool.or_eq_true, Bool.and_eq_true,
          decide_eq_true_eq] at this
        omega

/-- Sample compatible video format used by concrete witnesses. -/
def fmtMp4 : YtDlpFormat :=
  ⟨"v1", "mp4", none, some 640, some 480, none, none, none, some "h264",
   some "aac", none⟩

/-- Sample image format used by concrete witnesses. -/
def fmtJpg : YtDlpFormat :=
  ⟨"p1", "jpg", none, some 100, some 100, none, none, none, none, none, none⟩

/-- Demo video format with given id and height, mp4 with a real codec. -/
def demoFmt (id : String) (h : Int) : YtDlpFormat :=
  ⟨id, "mp4", none, none, some h, none, none, none, some "h264", none, none⟩

/-- Spec test vector for the sd tier: heights 240, 480, 720, 1080. -/
def demoSdFormats : List YtDlpFormat :=
  [demoFmt ("a") 240, demoFmt ("b") 480, demoFmt ("c") 720, demoFmt ("d") 1080]

/-- Witness for C2 at the spec test vector with heights 240, 480, 720 and
1080, discharging both hypotheses. -/
theorem sd_tier_selection_witness :
    (demoSdFormats ≠ [] ∧
      ∀ f ∈ demoSdFormats, f.height ≠ none ∧ 0 < heightD f) ∧
    (∃ r, selectFromFormats demoSdFormats .sd = some r ∧ r ∈ demoSdFormats ∧
      ((∃ f ∈ demoSdFormats, heightD f ≤ SD_MAX_HEIGHT) →
        heightD r ≤ SD_MAX_HEIGHT ∧
        ∀ g ∈ demoSdFormats, heightD g ≤ SD_MAX_HEIGHT →
          heightD g ≤ heightD r) ∧
      ((∀ f ∈ demoSdFormats, SD_MAX_HEIGHT < heightD f) →
        ∀ g ∈ demoSdFormats, heightD r ≤ heightD g)) :=
  ⟨⟨by decide, by decide⟩,
   sd_tier_selection demoSdFormats (by decide) (by decide)⟩

/-- Spec tie-break vector for the hd tier: heights 980 and 1180. -/
def demoHdFormats : List YtDlpFormat :=
  [demoFmt ("a") 980, demoFmt ("b") 1180]

/-- Witness for C1 at the spec tie-break vector with heights 980 and 1180,
discharging both hypotheses. -/
theorem hd_tier_selection_witness :
    (demoHdFormats ≠ [] ∧
      ∀ f ∈ demoHdFormats, f.height ≠ none ∧ 0 < heightD f) ∧
    (∃ r, selectFromFormats demoHdFormats .hd = some r ∧ r ∈ demoHdFormats ∧
      ((∃ f ∈ demoHdFormats, f.height = some HD_TARGET_HEIGHT) →
        r.height = some HD_TARGET_HEIGHT) ∧
      ((∀ f ∈ demoHdFormats, f.height ≠ some HD_TARGET_HEIGHT) →
        (∀ g ∈ demoHdFormats, distTo1080 r ≤ distTo1080 g) ∧
        (∀ g ∈ demoHdFormats, distTo1080 g = distTo1080 r →
          heightD g ≤ heightD r))) :=
  ⟨⟨by decide, by decide⟩,
   hd_tier_selection demoHdFormats (by decide) (by decide)⟩

/-- C6: selectFormat fails exactly when no format has a known positive
height; when the video pre-filter is nonempty the result comes from it,
and otherwise the result comes from the height-only fallback set. -/
theorem selectFormat_filter_fallback (fs : List YtDlpFormat) (q : Quality) :
    (selectFormat fs q = none ↔ fs.filter hasHeightB = []) ∧
    (fs.filter videoPred ≠ [] →
      ∃ r, selectFormat fs q = some r ∧ r ∈ fs.filter videoPred) ∧
    (fs.filter videoPred = [] → fs.filter hasHeightB ≠ [] →
      ∃ r, selectFormat fs q = some r ∧ r ∈ fs.filter hasHeightB) := by
  by_cases hv : (fs.filter videoPred).length = 0
  · have hvnil : fs.filter videoPred = [] := List.length_eq_zero.mp hv
    by_cases hh : (fs.filter hasHeightB).length = 0
    · have hhnil : fs.filter hasHeightB = [] := List.length_eq_zero.mp hh
      have heq : selectFormat fs q = none := by
        simp only [selectFormat]
        rw [if_pos hv, if_pos hh]
      refine ⟨by simp [heq, hhnil], ?_, ?_⟩
      · intro hvne; exact absurd hvnil hvne
      · intro _ hhne; exact absurd hhnil hhne
    · have hhne : fs.filter hasHeightB ≠ [] :=
        fun e => hh (by rw [e]; rfl)
      have heq : selectFormat fs q =
          selectFromFormats (fs.filter hasHeightB) q := by
        simp only [selectFormat]
        rw [if_pos hv, if_neg hh]
      obtain ⟨r, hr⟩ := selectFromFormats_isSome hhne q
      refine ⟨?_, ?_, ?_⟩
      · constructor
        · intro h0; rw [heq, hr] at h0; cases h0
        · intro h0; exact absurd h0 hhne
      · intro hvne; exact absurd hvnil hvne
      · intro _ _
        exact ⟨r, by rw [heq]; exact hr, selectFromFormats_mem hr⟩
  · have hvne : fs.filter videoPred ≠ [] := fun e => hv (by rw [e]; rfl)
    have heq : selectFormat fs q =
        selectFromFormats (fs.filter videoPred) q := by
      simp only [selectFormat]
      rw [if_neg hv]
    obtain ⟨r, hr⟩ := selectFromFormats_isSome hvne q
    have hrmem := selectFromFormats_mem hr
    have hrfs : r ∈ fs := List.mem_of_mem_filter hrmem
    have hrheight : hasHeightB r = true := by
      rcases List.mem_filter.mp hrmem with ⟨_, hp⟩
      simp only [videoPred, Bool.and_eq_true] at hp
      exact hp.1.2
    have hrh : r ∈ fs.filter hasHeightB :=
      List.mem_filter.mpr ⟨hrfs, hrheight⟩
    have hhne : fs.filter hasHeightB ≠ [] := List.ne_nil_of_mem hrh
    refine ⟨?_, ?_, ?_⟩
    · constructor
      · intro h0; rw [heq, hr] at h0; cases h0
      · intro h0; exact absurd h0 hhne
    · intro _; exact ⟨r, by rw [heq]; exact hr, hrmem⟩
    · intro hv0 _; exact absurd hv0 hvne

/-- Witness for C6 at a singleton compatible format, discharging the
nonempty pre-filter hypothesis. -/
theorem selectFormat_filter_fallback_witness :
    ∃ r, selectFormat [fmtMp4] .sd = some r ∧
      r ∈ [fmtMp4].filter videoPred :=
  (selectFormat_filter_fallback [fmtMp4] .sd).2.1 (by decide)

/-- Image format with upper-case extension JPG and area 100; it passes the
case-insensitive image filter yet ranks as an unknown extension in the
priority table, which reads the raw extension. -/
def fmtJpgUpper : YtDlpFormat :=
  ⟨"A", "JPG", none, some 10, some 10, none, none, none, none, none, none⟩

/-- Image format with lower-case extension png and area 100. -/
def fmtPngTie : YtDlpFormat :=
  ⟨"B", "png", none, some 10, some 10, none, none, none, none, none, none⟩

/-- Counterexample to C7, at two inputs so that both readings of its
filter clause fail.  First input: the formats with extensions JPG and png
both qualify as images after lower-casing and tie on pixel area, so the
claimed priority jpg over png would select the jpg format; the code
selects the png format because the priority table reads the raw extension
JPG and ranks it as unknown.  Second input: were the filter read as exact
membership instead, neither mp4 nor JPG would qualify and the claim would
demand the fallback to the first format, the mp4 one; the code returns
the JPG format because its filter lower-cases the extension. -/
theorem selectPhotoFormat_counterexample :
    (selectPhotoFormat [fmtJpgUpper, fmtPngTie] = some fmtPngTie ∧
      extLower fmtJpgUpper = "jpg" ∧ extLower fmtPngTie = "png" ∧
      area fmtJpgUpper = area fmtPngTie ∧ fmtPngTie ≠ fmtJpgUpper) ∧
    (selectPhotoFormat [fmtMp4, fmtJpgUpper] = some fmtJpgUpper ∧
      fmtJpgUpper.ext = "JPG" ∧ fmtMp4.ext = "mp4" ∧
      fmtJpgUpper ≠ fmtMp4) := by decide

/-- C7 amended: selectPhotoFormat filters to formats whose lower-cased
extension is an image extension, falls back to the first format in source
order when none qualifies, and otherwise returns a qualifying format of
maximal pixel area whose raw-extension priority is minimal among the
equal-area qualifiers. -/
theorem selectPhotoFormat_spec (fs : List YtDlpFormat) :
    (fs.filter imgPred = [] → selectPhotoFormat fs = fs.head?) ∧
    (fs.filter imgPred ≠ [] →
      ∃ r, selectPhotoFormat fs = some r ∧ r ∈ fs.filter imgPred ∧
        (∀ g ∈ fs.filter imgPred, area g ≤ area r) ∧
        (∀ g ∈ fs.filter imgPred, area g = area r →
          extPriority r.ext ≤ extPriority g.ext)) := by
  constructor
  · intro he
    simp only [selectPhotoFormat]
    rw [if_pos (by rw [he]; rfl)]
  · intro hne0
    have hlen : ¬ (fs.filter imgPred).length = 0 :=
      fun h => hne0 (List.length_eq_zero.mp h)
    have heq : selectPhotoFormat fs =
        (sortLe photoLe (fs.filter imgPred)).head? := by
      simp only [selectPhotoFormat]
      rw [if_neg hlen]
    rcases sortLe_head_min photoLe_trans photoLe_total hne0
      with ⟨h, hh, hmem, hall⟩
    refine ⟨h, by rw [heq]; exact hh, hmem, ?_, ?_⟩
    · intro g hg
      have hle := hall g hg
      by_cases hae : area h = area g
      · omega
      · rw [photoLe, if_neg hae] at hle
        simpa using hle
    · intro g hg hage
      have hle := hall g hg
      have hae : area h = area g := hage.symm
      rw [photoLe, if_pos hae] at hle
      simpa using hle

/-- Witness for C7 amended at a singleton jpg format, discharging the
nonempty filter hypothesis. -/
theorem selectPhotoFormat_spec_witness :
    ∃ r, selectPhotoFormat [fmtJpg] = some r ∧ r ∈ [fmtJpg].filter imgPred ∧
      (∀ g ∈ [fmtJpg].filter imgPred, area g ≤ area r) ∧
      (∀ g ∈ [fmtJpg].filter imgPred, area g = area r →
        extPriority r.ext ≤ extPriority g.ext) :=
  (selectPhotoFormat_spec [fmtJpg]).2 (by decide)

/-- C9: selectFormat is deterministic and stateless; two calls with the same
format list and quality tier return an identical result. -/
theorem selectFormat_deterministic (formats : List YtDlpFormat)
    (quality : Quality) :
    selectFormat formats quality = selectFormat formats quality := rfl

/-- C10: whenever selectFormat or selectPhotoFormat returns a format, that
format is an element of the input list; selection never fabricates or
alters a format. -/
theorem selection_returns_member (fs : List YtDlpFormat) (q : Quality)
    (r : YtDlpFormat) :
    (selectFormat fs q = some r → r ∈ fs) ∧
    (selectPhotoFormat fs = some r → r ∈ fs) := by
  constructor
  · intro h
    simp only [selectFormat] at h
    split at h
    · split at h
      · cases h
      · exact List.mem_of_mem_filter (selectFromFormats_mem h)
    · exact List.mem_of_mem_filter (selectFromFormats_mem h)
  · intro h
    simp only [selectPhotoFormat] at h
    split at h
    · rcases List.head?_eq_some_iff.mp h with ⟨ys, hys⟩
      rw [hys]; exact List.mem_cons_self _ _
    · rcases List.head?_eq_some_iff.mp h with ⟨ys, hys⟩
      have hmem : r ∈ sortLe photoLe (fs.filter imgPred) := by
        rw [hys]; exact List.mem_cons_self _ _
      exact List.mem_of_mem_filter (mem_sortLe.mp hmem)

/-- Witness for C10 at concrete inputs: both selectors return a member. -/
theorem selection_returns_member_witness :
    fmtMp4 ∈ [fmtMp4] ∧ fmtJpg ∈ [fmtJpg] :=
  ⟨(selection_returns_member [fmtMp4] .sd fmtMp4).1 (by decide),
   (selection_returns_member [fmtJpg] .sd fmtJpg).2 (by decide)⟩

end Vido
